import Mathlib

/-!
Shallow embedding of the Chord vnode maintenance code (net/chord/vnode.go) of the
nkn repository, together with proofs about the claims of its specification.

Modelling conventions:
* A ring ID (a fixed-length byte sequence in the source) is modelled as a natural
  number giving its position on the ring of size 2 ^ hashBits.  ID comparison by
  unsigned lexicographic byte order becomes comparison on these numbers.
* A Go `*Vnode` (a nullable pointer) is modelled as `Option Vnode`.  `String()`
  equality in the source is hex-of-Id equality, i.e. equality of the `id` field.
  Go pointer comparison of vnodes is modelled as value equality, which is the
  information available in a value-level embedding.
* The RPC transport and the delegate are external collaborators; they are
  modelled as oracle functions supplied as parameters.  Transport calls that the
  code performs are also recorded in the result (notified / pinged / askedPred
  traces) so that theorems can speak about which remote calls were issued.
* A Go `panic` (including nil-pointer dereference and index-out-of-range) is an
  explicit `panicked` outcome, distinct from returning an `error` value.
* The stabilization loop of `checkNewSuccessor` is written with explicit fuel;
  the top-level entry point supplies fuel that is definitionally large enough for
  every execution path used by the theorems below.
-/

set_option autoImplicit false

namespace NknChord

/-- Vnode identity, from the source struct: ring ID, host, and the two ports.
The ring ID byte sequence is modelled as its numeric ring position. -/
structure Vnode where
  id : Nat
  host : String
  nodePort : Nat
  httpWsPort : Nat
deriving DecidableEq, Repr

/-- Modelled from the spec (the ring arithmetic primitives are outside src/):
circular betweenness, true iff x lies strictly clockwise of a and strictly
before b on the ring, wrapping through zero. -/
def between (a b x : Nat) : Bool :=
  if b < a then decide (a < x) || decide (x < b)
  else decide (a < x) && decide (x < b)

/-- Modelled from the spec (the ring arithmetic primitives are outside src/):
circular betweenness that additionally admits x = b. -/
def betweenRightIncl (a b x : Nat) : Bool :=
  if b < a then decide (a < x) || decide (x ≤ b)
  else decide (a < x) && decide (x ≤ b)

/-- Modelled from the spec (the ring arithmetic primitives are outside src/):
powerOffset(id, i, hashBits) = id + 2^i mod 2^hashBits. -/
def powerOffset (id i hashBits : Nat) : Nat :=
  (id + 2 ^ i) % 2 ^ hashBits

/-- Accumulator loop of `knownSuccessors`: the Go loop walks every index and
records index + 1 whenever the entry is non-nil, so the final value is one plus
the index of the last non-nil entry. -/
def knownSuccessorsAux : List (Option Vnode) → Nat → Nat → Nat
  | [], _, acc => acc
  | none :: rest, i, acc => knownSuccessorsAux rest (i + 1) acc
  | some _ :: rest, i, acc => knownSuccessorsAux rest (i + 1) (i + 1)

/-- Function `knownSuccessors` from the source: for each index i with a non-nil entry the
result is set to i + 1; the final assignment wins. -/
def knownSuccessors (succs : List (Option Vnode)) : Nat :=
  knownSuccessorsAux succs 0 0

/-- Left shift used by successor-list repair: copy(s[0:], s[1:]) drops the head
and leaves the final slot holding the old last element. -/
def shiftLeftKeepLast (l : List (Option Vnode)) : List (Option Vnode) :=
  l.tail ++ l.drop (l.length - 1)

/-- Outcome of the embedded `SkipSuccessor`: either a normal return carrying the
new successor list and whether the delegate's successor-leaving callback was
invoked, or the nil-pointer dereference crash that Go hits when
`vn.successors[0]` is nil (or the slice is empty). -/
inductive SkipOutcome where
  | ret : List (Option Vnode) → Bool → SkipOutcome
  | nilDeref : SkipOutcome
deriving DecidableEq, Repr

/-- Function `SkipSuccessor` from the source: compares `vn.successors[0].String()` against
the leaving vnode without a nil check, then shifts the list left and nils the
slot at knownSuccessors - 1. -/
def SkipSuccessor (succs : List (Option Vnode)) (s : Vnode) : SkipOutcome :=
  match succs.head? with
  | none => .nilDeref
  | some none => .nilDeref
  | some (some h) =>
    if h.id = s.id then
      let known := knownSuccessors succs
      .ret ((shiftLeftKeepLast succs).set (known - 1) none) true
    else .ret succs false

/-- Merge loop of `notifySuccessor` from the source: entries of the returned
list are written at index + 1; the loop breaks (stops entirely) at the first
entry that is nil or has this vnode's ID. -/
def mergeSuccList (self : Vnode) : List (Option Vnode) → Nat → List (Option Vnode) → List (Option Vnode)
  | [], _, succs => succs
  | s :: rest, idx, succs =>
    match s with
    | none => succs
    | some v =>
      if v.id = self.id then succs
      else mergeSuccList self rest (idx + 1) (succs.set (idx + 1) (some v))

/-- Function `notifySuccessor` from the source, with the transport's Notify response
supplied by the `notifyRes` oracle.  The returned-list is truncated to capacity
minus one when longer, then merged by `mergeSuccList`.  A nil first successor
would be dereferenced by the transport; an empty slice would be an
index-out-of-range panic; both are modelled as the dereference error. -/
def notifySuccessor (notifyRes : Vnode → Except String (List (Option Vnode)))
    (self : Vnode) (maxSucc : Nat) (succs : List (Option Vnode)) :
    Except String (List (Option Vnode)) :=
  match succs.head? with
  | some (some s0) =>
    match notifyRes s0 with
    | .error e => .error e
    | .ok succList =>
      let t := if succList.length > maxSucc - 1 then succList.take (maxSucc - 1) else succList
      .ok (mergeSuccList self t 0 succs)
  | _ => .error "nil pointer dereference"

/-- Finger-table snapshot encoding from `toData` in the source: scanning left to
right, whenever an entry differs from its predecessor the predecessor's value is
written at the boundary index just before the change; the final index is always
written with the value the scan ends on; every other slot stays nil.  (A nil
vnode encodes to a nil slot, exactly as nil.ToData() does.) -/
def encodeFinger : List (Option Vnode) → List (Option Vnode)
  | [] => []
  | [x] => [x]
  | x :: y :: rest => (if x ≠ y then x else none) :: encodeFinger (y :: rest)

/-- Nearest non-empty slot at or to the right, used by the snapshot decoder. -/
def firstSome : List (Option Vnode) → Option Vnode
  | [] => none
  | some v :: _ => some v
  | none :: rest => firstSome rest

/-- Modelled from the spec (the snapshot decoder is outside src/): scan the
sparse table and fill every empty slot with the nearest non-empty slot to its
right; a slot with nothing non-empty to its right stays empty. -/
def decodeFinger : List (Option Vnode) → List (Option Vnode)
  | [] => []
  | x :: rest =>
    match x with
    | some v => some v :: decodeFinger rest
    | none => firstSome rest :: decodeFinger rest

/-- The monotonic run invariant of the finger table (spec section 3), as a
decidable check: whenever finger[j] is a node still responsible for the offset
of index j + 1, finger[j + 1] must hold the same node. -/
def runInvariantB (self : Vnode) (hb : Nat) (finger : List (Option Vnode)) : Bool :=
  (List.range finger.length).all fun j =>
    match finger[j]?, finger[j + 1]? with
    | some (some v), some w =>
      !(betweenRightIncl self.id v.id (powerOffset self.id (j + 1) hb)) || decide (w = some v)
    | _, _ => true

/-- Candidate loop of `FindSuccessors` from the source: delegate the query to
each closest-preceding candidate in turn, returning the first remote answer
as-is; a candidate whose remote call fails is skipped. -/
def tryRemotes (remote : Vnode → Except String (List (Option Vnode))) :
    List Vnode → Option (List (Option Vnode))
  | [] => none
  | c :: rest =>
    match remote c with
    | .ok res => some res
    | .error _ => tryRemotes remote rest

/-- Fallback loop of `FindSuccessors` from the source, with `remaining` counting
the iterations left (the Go loop runs i from 1 while i ≤ knownSuccessors − n):
return the suffix of the successor list at the first scanned index whose entry
brackets the key, truncated to n when longer. -/
def fallbackScan (self : Vnode) (key n : Nat) (succs : List (Option Vnode)) :
    Nat → Nat → Option (List (Option Vnode))
  | _, 0 => none
  | i, rem + 1 =>
    match succs[i]? with
    | some (some si) =>
      if betweenRightIncl self.id si.id key then
        some (let r := succs.drop i; if r.length > n then r.take n else r)
      else fallbackScan self key n succs (i + 1) rem
    | _ => fallbackScan self key n succs (i + 1) rem

/-- Tail of `FindSuccessors` after the local-answer check: try the remote
candidates, then the non-immediate-successor fallback, then fail. -/
def findSuccTail (candidates : List Vnode)
    (remote : Vnode → Except String (List (Option Vnode)))
    (self : Vnode) (succs : List (Option Vnode)) (n key : Nat) :
    Except String (List (Option Vnode)) :=
  match tryRemotes remote candidates with
  | some res => .ok res
  | none =>
    match fallbackScan self key n succs 1 (knownSuccessors succs - n) with
    | some l => .ok l
    | none => .error "Exhausted all preceeding nodes"

/-- Function `FindSuccessors` from the source.  The closest-preceding iterator lives
outside src/, so the candidate sequence it would produce is a parameter, and the
transport's FindSuccessors RPC is the `remote` oracle.  Path 1 answers from the
local successor list when the first successor brackets the key; path 2 returns
the first successful remote answer as-is; path 3 is the fallback scan. -/
def FindSuccessors (candidates : List Vnode)
    (remote : Vnode → Except String (List (Option Vnode)))
    (self : Vnode) (succs : List (Option Vnode)) (n key : Nat) :
    Except String (List (Option Vnode)) :=
  if succs.isEmpty then .error "Successor list not initialized"
  else if (match succs.head?.join with
           | some s0 => betweenRightIncl self.id s0.id key
           | none => false) then
    if n ≤ succs.length then .ok (succs.take n) else .ok succs
  else findSuccTail candidates remote self succs n key

/-- Outcome of the embedded `fixFingerTableAtIndex`: the updated finger table,
the returned next index, and the returned error value, or a Go panic. -/
inductive FixOutcome where
  | ret : List (Option Vnode) → Nat → Option String → FixOutcome
  | panicked : String → FixOutcome
deriving DecidableEq, Repr

/-- Extension loop of `fixFingerTableAtIndex` from the source: starting at idx,
while the next index is below hashBits and the node is still responsible for the
next power offset, write the node at the next index and advance.  Fuel-recursive;
fuel hashBits is always sufficient since idx strictly increases toward hashBits. -/
def extendRun (self node : Vnode) (hb : Nat) :
    List (Option Vnode) → Nat → Nat → List (Option Vnode) × Nat
  | finger, idx, 0 => (finger, idx)
  | finger, idx, fuel + 1 =>
    if hb ≤ idx + 1 then (finger, idx)
    else if betweenRightIncl self.id node.id (powerOffset self.id (idx + 1) hb) then
      extendRun self node hb (finger.set (idx + 1) (some node)) (idx + 1) fuel
    else (finger, idx)

/-- Function `fixFingerTableAtIndex` from the source.  The call to the local
`FindSuccessors(1, offset)` is the `resolve` oracle (its result is whatever the
lookup engine returned), `ping` is the transport's liveness probe.  When the
table held a different node at idx, a failed probe of the new candidate keeps
the old entry.  A nil node returned by the lookup is dereferenced by the
comparison or by the extension loop, exactly as in Go. -/
def fixFingerTableAtIndex (resolve : Nat → Except String (List (Option Vnode)))
    (ping : Vnode → Except String Bool) (self : Vnode) (hb : Nat)
    (finger : List (Option Vnode)) (idx : Nat) : FixOutcome :=
  match resolve (powerOffset self.id idx hb) with
  | .error e => .ret finger idx (some e)
  | .ok nodes =>
    match nodes.head? with
    | none => .ret finger idx none
    | some none =>
      match finger[idx]?.join with
      | some _ => .panicked "invalid memory address or nil pointer dereference"
      | none =>
        if hb ≤ idx + 1 then
          .ret (finger.set idx none) (if idx + 1 = hb then 0 else idx + 1) none
        else .panicked "invalid memory address or nil pointer dereference"
    | some (some node0) =>
      let node :=
        match finger[idx]?.join with
        | some old =>
          if old.id ≠ node0.id then
            match ping node0 with
            | .ok true => node0
            | _ => old
          else node0
        | none => node0
      let fr := extendRun self node hb (finger.set idx (some node)) idx hb
      .ret fr.1 (if fr.2 + 1 = hb then 0 else fr.2 + 1) none

/-- Transport oracle for the stabilization code: responses of the remote peers
to GetPredecessor, Ping, Notify, and of the local lookup engine to the
FindSuccessors(1, offset) call made by the finger-table manager. -/
structure ChordOracle where
  getPred : Vnode → Except String (Option Vnode)
  ping : Vnode → Except String Bool
  notifyRes : Vnode → Except String (List (Option Vnode))
  resolve : Nat → Except String (List (Option Vnode))

/-- Local vnode state used by `checkNewSuccessor`: identity, ring width,
successor list, finger table, and whether an OnNewSuccessor callback is set. -/
structure VnState where
  self : Vnode
  hb : Nat
  successors : List (Option Vnode)
  finger : List (Option Vnode)
  onNewSuccessor : Bool
deriving DecidableEq, Repr

/-- How a run of `checkNewSuccessor` ends: a normal return carrying the returned
error value, a Go panic, or exhaustion of the modelling fuel (never reached by
the executions the theorems below describe). -/
inductive Outcome where
  | ret : Option String → Outcome
  | panicked : String → Outcome
  | fuelOut : Outcome
deriving DecidableEq, Repr

/-- Result of a run of `checkNewSuccessor`: the outcome, the final successor
list and finger table, the peers notified, pinged and asked for their
predecessor by `checkNewSuccessor` itself (in call order; calls made inside the
nested `fixFingerTableAtIndex` are not traced), and whether the OnNewSuccessor
callback fired. -/
structure CNSResult where
  outcome : Outcome
  successors : List (Option Vnode)
  finger : List (Option Vnode)
  notified : List Vnode
  pinged : List Vnode
  askedPred : List Vnode
  newSuccCalled : Bool
deriving DecidableEq, Repr

/-- Result of the finger-table fallback scan inside `checkNewSuccessor`. -/
inductive ScanResult where
  | found : Vnode → ScanResult
  | notFound : ScanResult
  | derefNil : ScanResult
deriving DecidableEq, Repr

/-- The inner finger scan of `checkNewSuccessor` from the source: walk the
finger table with the previous entry in hand; skip nil entries, entries with
this vnode's ID, and entries equal to their predecessor entry; the first
remaining entry whose ID is not already covered by (Id, successors[0].Id] is the
promotion candidate.  Evaluating that coverage check dereferences
successors[0], so a nil first successor is a panic at that point. -/
def fingerScanFrom (self : Vnode) (succ0 : Option Vnode) :
    List (Option Vnode) → Option (Option Vnode) → ScanResult
  | [], _ => .notFound
  | n :: rest, prev =>
    match n with
    | none => fingerScanFrom self succ0 rest (some n)
    | some v =>
      if v.id = self.id then fingerScanFrom self succ0 rest (some n)
      else if (match prev with | none => true | some p => decide (n ≠ p)) then
        match succ0 with
        | none => .derefNil
        | some s0 =>
          if betweenRightIncl self.id s0.id v.id then fingerScanFrom self succ0 rest (some n)
          else .found v
      else fingerScanFrom self succ0 rest (some n)

/-- Code after the repair loop of `checkNewSuccessor` from the source: when the
reported predecessor lies strictly between this vnode and the current successor,
probe it; on probe failure renotify the existing successor and return the probe
error; on success shift the list right, adopt it as successors[0], refresh
finger index 0, and fire the OnNewSuccessor callback. -/
def cnsFinish (oc : ChordOracle) (self : Vnode) (hb : Nat)
    (finger : List (Option Vnode)) (hasCb : Bool) (succs : List (Option Vnode))
    (succv : Vnode) (maybeSuc : Option Vnode) (nt pg ak : List Vnode) : CNSResult :=
  match maybeSuc with
  | none => ⟨.ret none, succs, finger, nt, pg, ak, false⟩
  | some ms =>
    if between self.id succv.id ms.id then
      match oc.ping ms with
      | .error e => ⟨.ret (some e), succs, finger, nt ++ [succv], pg ++ [ms], ak, false⟩
      | .ok alive =>
        if alive then
          let succs2 := some ms :: succs.dropLast
          match fixFingerTableAtIndex oc.resolve oc.ping self hb finger 0 with
          | .panicked m => ⟨.panicked m, succs2, finger, nt, pg ++ [ms], ak, false⟩
          | .ret finger2 _ errOpt =>
            match errOpt with
            | some e => ⟨.ret (some e), succs2, finger2, nt, pg ++ [ms], ak, false⟩
            | none => ⟨.ret none, succs2, finger2, nt, pg ++ [ms], ak, hasCb⟩
        else ⟨.ret none, succs, finger, nt ++ [succv], pg ++ [ms], ak, false⟩
    else ⟨.ret none, succs, finger, nt, pg, ak, false⟩

/-- The repair loop of `checkNewSuccessor` from the source (for i := 0; i <
known; i++).  On a pending GetPredecessor error: at the last known index, scan
the finger table and promote the first uncovered candidate into slot 1
(extending known), panicking with the source's message when none exists; then
shift the list left, nil the freed slot, and retry GetPredecessor against the
new first successor.  The loop breaks as soon as the pending error is nil. -/
def cnsLoop (oc : ChordOracle) (self : Vnode) (hb : Nat)
    (finger : List (Option Vnode)) (hasCb : Bool) :
    Nat → List (Option Vnode) → Vnode → Option Vnode → Option String → Nat → Nat →
    List Vnode → List Vnode → List Vnode → CNSResult
  | 0, succs, _, _, _, _, _, nt, pg, ak => ⟨.fuelOut, succs, finger, nt, pg, ak, false⟩
  | fuel + 1, succs, succv, maybeSuc, errv, known, i, nt, pg, ak =>
    if known ≤ i then cnsFinish oc self hb finger hasCb succs succv maybeSuc nt pg ak
    else if errv = none then cnsFinish oc self hb finger hasCb succs succv maybeSuc nt pg ak
    else if i = known - 1 then
      match fingerScanFrom self succs.head?.join finger none with
      | .derefNil =>
        ⟨.panicked "invalid memory address or nil pointer dereference", succs, finger, nt, pg, ak, false⟩
      | .found c =>
        if succs.length < 2 then
          ⟨.panicked "index out of range", succs, finger, nt, pg, ak, false⟩
        else
          let succs1 := succs.set 1 (some c)
          if i = (known + 1) - 1 then
            ⟨.panicked "All known successors dead!", succs1, finger, nt, pg, ak, false⟩
          else
            let succs2 := (shiftLeftKeepLast succs1).set ((known + 1) - 1 - i) none
            match succs2.head? with
            | some (some s) =>
              match oc.getPred s with
              | .ok v =>
                cnsLoop oc self hb finger hasCb fuel succs2 s v none (known + 1) (i + 1) nt pg (ak ++ [s])
              | .error e =>
                cnsLoop oc self hb finger hasCb fuel succs2 s none (some e) (known + 1) (i + 1) nt pg (ak ++ [s])
            | _ =>
              ⟨.panicked "invalid memory address or nil pointer dereference", succs2, finger, nt, pg, ak, false⟩
      | .notFound =>
        ⟨.panicked "All known successors dead!", succs, finger, nt, pg, ak, false⟩
    else
      let succs2 := (shiftLeftKeepLast succs).set (known - 1 - i) none
      match succs2.head? with
      | some (some s) =>
        match oc.getPred s with
        | .ok v =>
          cnsLoop oc self hb finger hasCb fuel succs2 s v none known (i + 1) nt pg (ak ++ [s])
        | .error e =>
          cnsLoop oc self hb finger hasCb fuel succs2 s none (some e) known (i + 1) nt pg (ak ++ [s])
      | _ =>
        ⟨.panicked "invalid memory address or nil pointer dereference", succs2, finger, nt, pg, ak, false⟩

/-- Function `checkNewSuccessor` from the source: return an error when the first
successor is nil, otherwise ask it for its predecessor and run the repair loop,
then the replacement check.  Fuel covers one iteration per successor slot plus
one per finger entry plus the final break. -/
def checkNewSuccessor (oc : ChordOracle) (st : VnState) : CNSResult :=
  match st.successors.head? with
  | none => ⟨.panicked "index out of range", st.successors, st.finger, [], [], [], false⟩
  | some none => ⟨.ret (some "Node has no successor!"), st.successors, st.finger, [], [], [], false⟩
  | some (some s0) =>
    let known := knownSuccessors st.successors
    let fuel := st.successors.length + st.finger.length + 2
    match oc.getPred s0 with
    | .ok v =>
      cnsLoop oc st.self st.hb st.finger st.onNewSuccessor fuel st.successors s0 v none known 0 [] [] [s0]
    | .error e =>
      cnsLoop oc st.self st.hb st.finger st.onNewSuccessor fuel st.successors s0 none (some e) known 0 [] [] [s0]

/-- Count of non-null leading entries, as the spec claims `knownSuccessors`
computes it (comparison definition for the refinement claim). -/
def leadingNonNull : List (Option Vnode) → Nat
  | some _ :: rest => leadingNonNull rest + 1
  | _ => 0

/-- One plus the index of the last non-null entry, 0 when every entry is null:
the quantity the source's `knownSuccessors` actually computes (comparison
definition for the amended claim). -/
def knownLen : List (Option Vnode) → Nat
  | [] => 0
  | x :: r =>
    let k := knownLen r
    if k = 0 then (if x.isSome then 1 else 0) else k + 1

/-- Merge as the claim words it (comparison definition): skip entries that equal
this vnode while continuing with the subsequent entries, writing each kept entry
at its index offset by one. -/
def mergeSkipSelf (self : Vnode) : List (Option Vnode) → Nat → List (Option Vnode) → List (Option Vnode)
  | [], _, succs => succs
  | s :: rest, idx, succs =>
    match s with
    | none => mergeSkipSelf self rest (idx + 1) succs
    | some v =>
      if v.id = self.id then mergeSkipSelf self rest (idx + 1) succs
      else mergeSkipSelf self rest (idx + 1) (succs.set (idx + 1) (some v))

/-- Number of entries of the returned list that the source merge actually
consumes before breaking: the index of the first entry that is nil or equals
this vnode, or the whole length when there is none. -/
def mergeStop (self : Vnode) : List (Option Vnode) → Nat
  | [] => 0
  | s :: rest =>
    match s with
    | none => 0
    | some v => if v.id = self.id then 0 else mergeStop self rest + 1

/-- The error component of a liveness-probe result: the error value the probe
produced, or none when the probe returned a boolean. -/
def probeErr : Except String Bool → Option String
  | .error e => some e
  | .ok _ => none

/-- True when every nil entry of the table is followed only by nil entries,
i.e. the nil entries form a suffix. -/
def nilsAtTailOnly : List (Option Vnode) → Bool
  | [] => true
  | some _ :: rest => nilsAtTailOnly rest
  | none :: rest => rest.all fun o => o.isNone

/-- Concrete vnode builder for the example states below. -/
def mkV (n : Nat) (h : String) : Vnode := ⟨n, h, 0, 0⟩

/-- Oracle whose every remote call fails: an unreachable network. -/
def ocDead : ChordOracle :=
  ⟨fun _ => .error "connection refused", fun _ => .ok false,
   fun _ => .error "connection refused", fun _ => .error "connection refused"⟩

/-- Isolated vnode of claim C1: one dead successor, empty finger table. -/
def stIso : VnState := ⟨mkV 10 "a", 8, [some (mkV 20 "b"), none], [], false⟩

/-- Example successor list with an interior nil for the knownSuccessors claims. -/
def exKnown : List (Option Vnode) := [some (mkV 1 "b"), none, some (mkV 2 "c")]

/-- Oracle for the C5 scenario: successor with ID 20 is dead, the finger
candidate with ID 5 answers GetPredecessor with a nil predecessor. -/
def oc5 : ChordOracle :=
  ⟨fun v => if v.id = 20 then .error "connection refused"
            else if v.id = 5 then .ok none else .error "connection refused",
   fun _ => .ok false, fun _ => .error "connection refused",
   fun _ => .error "connection refused"⟩

/-- State for the C5 scenario: only successor B (ID 20), finger candidate C
(ID 5) not covered by (10, 20]. -/
def st5 : VnState := ⟨mkV 10 "a", 8, [some (mkV 20 "b"), none], [some (mkV 5 "c")], false⟩

/-- Oracle for the C7 witness: the successor reports a predecessor that lies
between, and the probe of that candidate fails with a transport error. -/
def oc7 : ChordOracle :=
  ⟨fun v => if v.id = 20 then .ok (some (mkV 15 "p")) else .error "connection refused",
   fun v => if v.id = 15 then .error "unreachable" else .ok true,
   fun _ => .error "connection refused", fun _ => .error "connection refused"⟩

/-- State for the C7 witness: successors [B, C] with B (ID 20) first, and an
OnNewSuccessor callback installed. -/
def st7 : VnState :=
  ⟨mkV 10 "a", 8, [some (mkV 20 "b"), some (mkV 30 "c")], [some (mkV 30 "c")], true⟩

/-- Lookup oracle for the C8 counterexample: offset 2 (index 1 from ID 0 with 3
hash bits) resolves to the node with ID 3. -/
def resolve8 : Nat → Except String (List (Option Vnode)) :=
  fun off => if off = 2 then .ok [some (mkV 3 "b")] else .error "no route"

/-- Lookup oracle for the C8 witness: offset 1 (index 0 from ID 0 with 3 hash
bits) resolves to the node with ID 3. -/
def resolve8w : Nat → Except String (List (Option Vnode)) :=
  fun off => if off = 1 then .ok [some (mkV 3 "b")] else .error "no route"

/-- Liveness oracle that reports every peer alive. -/
def pingUp : Vnode → Except String Bool := fun _ => .ok true

/-- Finger table for the C8 counterexample: one long run of the node with ID 7,
which satisfies the run invariant for self ID 0 and 3 hash bits. -/
def fpre8 : List (Option Vnode) := [some (mkV 7 "a"), some (mkV 7 "a"), some (mkV 7 "a")]

/-- Notify oracle for the C3 counterexample: the successor with ID 20 returns a
list whose first entry is this vnode itself (ID 5) followed by a fresh node. -/
def notifyOc3 : Vnode → Except String (List (Option Vnode)) :=
  fun v => if v.id = 20 then .ok [some (mkV 5 "s"), some (mkV 30 "x")] else .error "no"

/-- Notify oracle for the C3 witness: the fresh node comes first, then this
vnode itself. -/
def notifyOc3w : Vnode → Except String (List (Option Vnode)) :=
  fun v => if v.id = 20 then .ok [some (mkV 30 "x"), some (mkV 5 "s")] else .error "no"

/-- Successor list shared by the C3 examples. -/
def succs3 : List (Option Vnode) := [some (mkV 20 "b"), none, none]

/-- Successor list for the C4 examples: three known successors from ID 0. -/
def succs4 : List (Option Vnode) := [some (mkV 10 "a"), some (mkV 20 "b"), some (mkV 30 "c")]

/-- A remote oracle that fails on every candidate. -/
def remFail : Vnode → Except String (List (Option Vnode)) := fun _ => .error "unreachable"

/-- A remote oracle answering every query with three entries, for the C6
counterexample. -/
def remBig : Vnode → Except String (List (Option Vnode)) :=
  fun _ => .ok [some (mkV 60 "x"), some (mkV 70 "y"), some (mkV 80 "z")]

/-- Example vnode used as snapshot content in the C9 theorems. -/
def a9 : Vnode := mkV 3 "a"

theorem knownSuccessorsAux_eq (l : List (Option Vnode)) :
    ∀ i acc, knownSuccessorsAux l i acc = if knownLen l = 0 then acc else i + knownLen l := by
  induction l with
  | nil => intro i acc; simp [knownSuccessorsAux, knownLen]
  | cons x r ih =>
    intro i acc
    cases x with
    | none =>
      by_cases hk : knownLen r = 0 <;>
        simp [knownSuccessorsAux, knownLen, ih, hk] <;> omega
    | some v =>
      by_cases hk : knownLen r = 0 <;>
        simp [knownSuccessorsAux, knownLen, ih, hk] <;> omega

theorem firstSome_encode (v : Vnode) :
    ∀ t, firstSome (encodeFinger (some v :: t)) = some v := by
  intro t
  induction t with
  | nil => rfl
  | cons y t ih =>
    by_cases hy : (some v : Option Vnode) = y
    · subst hy
      simpa [encodeFinger, firstSome] using ih
    · simp [encodeFinger, hy, firstSome]

theorem firstSome_all_none (l : List (Option Vnode))
    (h : (l.all fun o => o.isNone) = true) : firstSome l = none := by
  induction l with
  | nil => rfl
  | cons x r ih =>
    cases x with
    | none =>
      simp only [List.all_cons, Bool.and_eq_true] at h
      exact ih (by simpa using h.2)
    | some v => simp at h

theorem encode_all_none (l : List (Option Vnode))
    (h : (l.all fun o => o.isNone) = true) : encodeFinger l = l := by
  induction l with
  | nil => rfl
  | cons x r ih =>
    cases x with
    | some v => simp at h
    | none =>
      cases r with
      | nil => rfl
      | cons y t =>
        simp only [List.all_cons, Bool.and_eq_true] at h
        have ht : ((y :: t).all fun o => o.isNone) = true := by
          simpa using h.2
        simp [encodeFinger, ih ht, ite_self]

theorem decode_all_none (l : List (Option Vnode))
    (h : (l.all fun o => o.isNone) = true) : decodeFinger l = l := by
  induction l with
  | nil => rfl
  | cons x r ih =>
    cases x with
    | some v => simp at h
    | none =>
      simp only [List.all_cons, Bool.and_eq_true] at h
      have hr : (r.all fun o => o.isNone) = true := by simpa using h.2
      simp [decodeFinger, ih hr, firstSome_all_none r hr]

theorem decode_encode_aux (l : List (Option Vnode)) (htail : nilsAtTailOnly l = true) :
    decodeFinger (encodeFinger l) = l := by
  induction l with
  | nil => rfl
  | cons x r ih =>
    cases r with
    | nil => cases x <;> rfl
    | cons y t =>
      cases x with
      | some a =>
        have hr : nilsAtTailOnly (y :: t) = true := by
          simpa [nilsAtTailOnly] using htail
        by_cases hxy : (some a : Option Vnode) = y
        · simp [encodeFinger, hxy, decodeFinger, ih hr, firstSome_encode a t,
            hxy ▸ firstSome_encode a t]
        · simp [encodeFinger, hxy, decodeFinger, ih hr]
      | none =>
        have hall : ((y :: t).all fun o => o.isNone) = true := by
          simpa [nilsAtTailOnly] using htail
        have hr : nilsAtTailOnly (y :: t) = true := by
          cases y with
          | none =>
            simp only [List.all_cons, Bool.and_eq_true] at hall
            simp only [nilsAtTailOnly]
            simpa using hall.2
          | some v => simp at hall
        simp [encodeFinger, decodeFinger, ite_self, encode_all_none _ hall,
          firstSome_all_none _ hall, decode_all_none _ hall]

/-- Claim C1: an isolated vnode (dead successor, no usable finger entry) should
have `checkNewSuccessor` surface a fatal RingIsolated error value without
crashing the process; the source instead executes an unconditional
panic("All known successors dead!"), which crashes.  This theorem evaluates the
embedded code at such a state and shows the panic branch is reached rather than
any error-returning branch. -/
theorem checkNewSuccessor_isolated_panics :
    (checkNewSuccessor ocDead stIso).outcome = .panicked "All known successors dead!" ∧
    ∀ e, (checkNewSuccessor ocDead stIso).outcome ≠ .ret e := by
  constructor
  · decide
  · intro e h
    have : (checkNewSuccessor ocDead stIso).outcome = .panicked "All known successors dead!" := by
      decide
    rw [this] at h
    exact Outcome.noConfusion h

/-- Claim C2 counterexample: on a successor list with an interior nil followed
by a non-nil entry, `knownSuccessors` returns 3 while the count of non-null
leading entries is 1, so the claim is false as stated. -/
theorem knownSuccessors_not_leading_count :
    knownSuccessors exKnown = 3 ∧ leadingNonNull exKnown = 1 ∧ (3 : Nat) ≠ 1 := by
  decide

/-- Claim C2, amended: `knownSuccessors` returns one plus the index of the last
non-null entry (0 when all entries are null); this equals the count of leading
non-null entries only when the non-null entries form a prefix. -/
theorem knownSuccessors_eq_knownLen (l : List (Option Vnode)) :
    knownSuccessors l = knownLen l := by
  rw [knownSuccessors, knownSuccessorsAux_eq]
  split <;> omega

/-- Claim C9 counterexample: the table [nil, A] satisfies the run invariant, yet
encoding writes nothing for the nil run (a nil vnode serializes to an empty
slot) and decoding fills slot 0 from the right, so the round trip returns
[A, A] and the claim is false as stated. -/
theorem snapshot_roundtrip_cex :
    runInvariantB (mkV 0 "s") 2 [none, some a9] = true ∧
    decodeFinger (encodeFinger [none, some a9]) = [some a9, some a9] ∧
    ([some a9, some a9] : List (Option Vnode)) ≠ [none, some a9] := by
  decide

/-- Claim C9, amended: for any finger table satisfying the run invariant in
which the nil entries form a suffix (no non-nil entry follows a nil entry),
decoding the snapshot encoding returns the original table. -/
theorem snapshot_roundtrip_spec (self : Vnode) (hb : Nat) (finger : List (Option Vnode))
    (hinv : runInvariantB self hb finger = true)
    (htail : nilsAtTailOnly finger = true) :
    decodeFinger (encodeFinger finger) = finger :=
  decode_encode_aux finger htail

/-- Witness for the amended C9 theorem at a concrete invariant-satisfying
table. -/
theorem snapshot_roundtrip_spec_wit :
    runInvariantB (mkV 0 "s") 1 [some a9, none] = true ∧
    nilsAtTailOnly [some a9, none] = true ∧
    decodeFinger (encodeFinger [some a9, none]) = [some a9, none] :=
  ⟨by decide, by decide,
    snapshot_roundtrip_spec (mkV 0 "s") 1 [some a9, none] (by decide) (by decide)⟩

theorem cnsLoop_break (oc : ChordOracle) (self : Vnode) (hb : Nat)
    (finger : List (Option Vnode)) (hasCb : Bool) (fuel : Nat)
    (succs : List (Option Vnode)) (succv : Vnode) (ms : Option Vnode)
    (known i : Nat) (nt pg ak : List Vnode) :
    cnsLoop oc self hb finger hasCb (fuel + 1) succs succv ms none known i nt pg ak =
      cnsFinish oc self hb finger hasCb succs succv ms nt pg ak := by
  simp [cnsLoop]

/-- Claim C7: when the successor's reported predecessor lies strictly between
this vnode and the first successor but its liveness probe fails, the successor
list (and finger table) are left unchanged, the existing successor is the one
node notified, the probe error value is what the call returns, and the probe is
issued exactly once with no further predecessor queries (no local retry). -/
theorem checkNewSuccessor_probe_fail_spec (oc : ChordOracle) (st : VnState) (b p : Vnode)
    (h1 : st.successors.head? = some (some b))
    (h2 : oc.getPred b = .ok (some p))
    (h3 : between st.self.id b.id p.id = true)
    (h4 : oc.ping p = .ok false ∨ ∃ e, oc.ping p = .error e) :
    checkNewSuccessor oc st =
      ⟨.ret (probeErr (oc.ping p)), st.successors, st.finger, [b], [p], [b], false⟩ := by
  have hfuel : st.successors.length + st.finger.length + 2
      = (st.successors.length + st.finger.length + 1) + 1 := rfl
  simp only [checkNewSuccessor, h1, h2]
  rw [hfuel, cnsLoop_break]
  simp only [cnsFinish, h3, if_pos]
  rcases h4 with h4 | ⟨e, h4⟩ <;> simp [h4, probeErr]

/-- Witness for the C7 theorem at the concrete state st7 and oracle oc7. -/
theorem checkNewSuccessor_probe_fail_spec_wit :
    checkNewSuccessor oc7 st7 =
      ⟨.ret (some "unreachable"), st7.successors, st7.finger,
        [mkV 20 "b"], [mkV 15 "p"], [mkV 20 "b"], false⟩ :=
  checkNewSuccessor_probe_fail_spec oc7 st7 (mkV 20 "b") (mkV 15 "p")
    rfl rfl rfl (Or.inr ⟨"unreachable", rfl⟩)

theorem mergeStop_le_length (self : Vnode) :
    ∀ t : List (Option Vnode), mergeStop self t ≤ t.length := by
  intro t
  induction t with
  | nil => simp [mergeStop]
  | cons s rest ih =>
    cases s with
    | none => simp [mergeStop]
    | some v =>
      by_cases hv : v.id = self.id <;> simp [mergeStop, hv] <;> omega

theorem mergeSuccList_length (self : Vnode) :
    ∀ (t : List (Option Vnode)) (idx : Nat) (succs : List (Option Vnode)),
      (mergeSuccList self t idx succs).length = succs.length := by
  intro t
  induction t with
  | nil => intro idx succs; rfl
  | cons s rest ih =>
    intro idx succs
    cases s with
    | none => rfl
    | some v =>
      by_cases hv : v.id = self.id
      · simp [mergeSuccList, hv]
      · simp [mergeSuccList, hv, ih]

theorem mergeSuccList_getElem_out (self : Vnode) :
    ∀ (t : List (Option Vnode)) (idx : Nat) (succs : List (Option Vnode)) (j : Nat),
      (j ≤ idx ∨ idx + mergeStop self t < j) →
      (mergeSuccList self t idx succs)[j]? = succs[j]? := by
  intro t
  induction t with
  | nil => intro idx succs j _; rfl
  | cons s rest ih =>
    intro idx succs j h
    cases s with
    | none => rfl
    | some v =>
      by_cases hv : v.id = self.id
      · simp [mergeSuccList, hv]
      · have hstop : mergeStop self (some v :: rest) = mergeStop self rest + 1 := by
          simp [mergeStop, hv]
        rw [hstop] at h
        simp only [mergeSuccList, if_neg hv]
        rw [ih (idx + 1) _ j (by omega)]
        exact List.getElem?_set_ne (by omega)

theorem mergeSuccList_getElem_in (self : Vnode) :
    ∀ (t : List (Option Vnode)) (idx : Nat) (succs : List (Option Vnode)) (k : Nat),
      k < mergeStop self t → idx + 1 + k < succs.length →
      (mergeSuccList self t idx succs)[idx + 1 + k]? = t[k]? := by
  intro t
  induction t with
  | nil => intro idx succs k hk _; simp [mergeStop] at hk
  | cons s rest ih =>
    intro idx succs k hk hlen
    cases s with
    | none => simp [mergeStop] at hk
    | some v =>
      by_cases hv : v.id = self.id
      · simp [mergeStop, hv] at hk
      · have hstop : mergeStop self (some v :: rest) = mergeStop self rest + 1 := by
          simp [mergeStop, hv]
        simp only [mergeSuccList, if_neg hv]
        cases k with
        | zero =>
          have h0 : idx + 1 + 0 = idx + 1 := rfl
          rw [h0,
            mergeSuccList_getElem_out self rest (idx + 1) _ (idx + 1) (Or.inl le_rfl),
            List.getElem?_set_eq_of_lt _ (by omega)]
          simp
        | succ k' =>
          have harith : idx + 1 + (k' + 1) = (idx + 1) + 1 + k' := by omega
          rw [harith, ih (idx + 1) _ k' (by rw [hstop] at hk; omega) (by simp; omega)]
          simp

/-- Claim C3 counterexample: when the successor's returned list starts with this
vnode itself, the source merge breaks immediately and writes nothing, while the
claimed skip-and-continue merge would still write the following entry; the claim
is false as stated. -/
theorem notifySuccessor_breaks_not_skips :
    notifySuccessor notifyOc3 (mkV 5 "s") 3 succs3 = .ok succs3 ∧
    mergeSkipSelf (mkV 5 "s") [some (mkV 5 "s"), some (mkV 30 "x")] 0 succs3 =
      [some (mkV 20 "b"), none, some (mkV 30 "x")] ∧
    succs3 ≠ [some (mkV 20 "b"), none, some (mkV 30 "x")] :=
  ⟨rfl, by decide, by decide⟩

/-- Claim C3, amended: the merge truncates the returned list to at most
capacity − 1 entries and writes kept entries at their index offset by one, but
it stops entirely at the first entry that is nil or equals this vnode rather
than skipping it; entries before that stop point land at index + 1, slot 0 and
all slots beyond the stop point are unchanged. -/
theorem notifySuccessor_merge_spec (notifyRes : Vnode → Except String (List (Option Vnode)))
    (self : Vnode) (maxSucc : Nat) (succs succList : List (Option Vnode)) (s0 : Vnode)
    (h0 : succs.head? = some (some s0))
    (hres : notifyRes s0 = .ok succList)
    (hcap : succs.length = maxSucc) :
    ∃ succs',
      notifySuccessor notifyRes self maxSucc succs = .ok succs' ∧
      succs'.length = succs.length ∧
      mergeStop self (succList.take (maxSucc - 1)) ≤ maxSucc - 1 ∧
      (∀ k, k < mergeStop self (succList.take (maxSucc - 1)) →
        succs'[k + 1]? = (succList.take (maxSucc - 1))[k]?) ∧
      (∀ j, j = 0 ∨ mergeStop self (succList.take (maxSucc - 1)) < j →
        succs'[j]? = succs[j]?) := by
  have ht : (if succList.length > maxSucc - 1
      then succList.take (maxSucc - 1) else succList) = succList.take (maxSucc - 1) := by
    split
    · rfl
    · next h => exact (List.take_of_length_le (by omega)).symm
  have hstople : mergeStop self (succList.take (maxSucc - 1)) ≤ maxSucc - 1 := by
    calc mergeStop self (succList.take (maxSucc - 1))
        ≤ (succList.take (maxSucc - 1)).length := mergeStop_le_length self _
      _ ≤ maxSucc - 1 := by simp
  refine ⟨mergeSuccList self (succList.take (maxSucc - 1)) 0 succs, ?_, ?_, hstople, ?_, ?_⟩
  · simp only [notifySuccessor, h0, hres, ht]
  · exact mergeSuccList_length self _ 0 succs
  · intro k hk
    have : 0 + 1 + k = k + 1 := by omega
    rw [← this]
    exact mergeSuccList_getElem_in self _ 0 succs k hk (by omega)
  · intro j hj
    exact mergeSuccList_getElem_out self _ 0 succs j (by omega)

/-- Witness for the amended C3 theorem at a concrete state and Notify
response. -/
theorem notifySuccessor_merge_spec_wit :
    ∃ succs',
      notifySuccessor notifyOc3w (mkV 5 "s") 3 succs3 = .ok succs' ∧
      succs'.length = succs3.length ∧
      mergeStop (mkV 5 "s") (([some (mkV 30 "x"), some (mkV 5 "s")] : List (Option Vnode)).take 2) ≤ 2 ∧
      (∀ k, k < mergeStop (mkV 5 "s") (([some (mkV 30 "x"), some (mkV 5 "s")] : List (Option Vnode)).take 2) →
        succs'[k + 1]? = (([some (mkV 30 "x"), some (mkV 5 "s")] : List (Option Vnode)).take 2)[k]?) ∧
      (∀ j, j = 0 ∨ mergeStop (mkV 5 "s") (([some (mkV 30 "x"), some (mkV 5 "s")] : List (Option Vnode)).take 2) < j →
        succs'[j]? = succs3[j]?) :=
  notifySuccessor_merge_spec notifyOc3w (mkV 5 "s") 3 succs3
    [some (mkV 30 "x"), some (mkV 5 "s")] (mkV 20 "b") rfl rfl rfl

theorem tryRemotes_none (remote : Vnode → Except String (List (Option Vnode))) :
    ∀ candidates, (∀ c ∈ candidates, ∃ e, remote c = .error e) →
      tryRemotes remote candidates = none := by
  intro candidates
  induction candidates with
  | nil => intro _; rfl
  | cons c rest ih =>
    intro h
    obtain ⟨e, he⟩ := h c (by simp)
    simp only [tryRemotes, he]
    exact ih fun c' hc' => h c' (by simp [hc'])

theorem tryRemotes_ok (remote : Vnode → Except String (List (Option Vnode))) :
    ∀ candidates res, tryRemotes remote candidates = some res →
      ∃ c, c ∈ candidates ∧ remote c = .ok res := by
  intro candidates
  induction candidates with
  | nil => intro res h; simp [tryRemotes] at h
  | cons c rest ih =>
    intro res h
    simp only [tryRemotes] at h
    cases hrc : remote c with
    | ok r =>
      rw [hrc] at h
      exact ⟨c, by simp, by rw [hrc, Option.some_inj.mp h]⟩
    | error e =>
      rw [hrc] at h
      obtain ⟨c', hc', ho⟩ := ih res h
      exact ⟨c', by simp [hc'], ho⟩

theorem fallbackScan_len (self : Vnode) (key n : Nat) (succs : List (Option Vnode)) :
    ∀ rem i l, fallbackScan self key n succs i rem = some l → l.length ≤ n := by
  intro rem
  induction rem with
  | zero => intro i l h; simp [fallbackScan] at h
  | succ rem ih =>
    intro i l h
    rw [fallbackScan] at h
    cases hsi : succs[i]? with
    | none => rw [hsi] at h; dsimp only at h; exact ih (i + 1) l h
    | some o =>
      cases o with
      | none => rw [hsi] at h; dsimp only at h; exact ih (i + 1) l h
      | some si =>
        rw [hsi] at h
        dsimp only at h
        by_cases hb : betweenRightIncl self.id si.id key = true
        · rw [if_pos hb] at h
          obtain h := Option.some_inj.mp h
          subst h
          split
          · simp [List.length_take]
          · next hgt => omega
        · rw [if_neg hb] at h
          exact ih (i + 1) l h

theorem fallbackScan_hit (self : Vnode) (key n : Nat) (succs : List (Option Vnode)) (tv : Vnode) :
    ∀ rem i t, i ≤ t → t < i + rem →
      succs[t]? = some (some tv) → betweenRightIncl self.id tv.id key = true →
      (∀ j sj, i ≤ j → j < t → succs[j]? = some (some sj) →
        betweenRightIncl self.id sj.id key = false) →
      fallbackScan self key n succs i rem = some ((succs.drop t).take n) := by
  intro rem
  induction rem with
  | zero => intro i t h1 h2 _ _ _; omega
  | succ rem ih =>
    intro i t h1 h2 ht hbt hmin
    by_cases hit : i = t
    · subst hit
      rw [fallbackScan, ht]
      dsimp only
      rw [hbt, if_pos rfl]
      congr 1
      split
      · rfl
      · next h => exact (List.take_of_length_le (by omega)).symm
    · have hlt : i < t := by omega
      have hrec := ih (i + 1) t (by omega) (by omega) ht hbt
        fun j sj hj1 hj2 => hmin j sj (by omega) hj2
      rw [fallbackScan]
      cases hsi : succs[i]? with
      | none => dsimp only; exact hrec
      | some o =>
        cases o with
        | none => dsimp only; exact hrec
        | some si =>
          dsimp only
          rw [hmin i si le_rfl hlt hsi]
          simpa using hrec

/-- Claim C4 counterexample: with three known successors, n = 2, all remote
candidates failing, and only successors[2] bracketing the key, the source scans
indices 1 through knownSuccessors − n = 1 only and fails, while the claimed
range 1 through knownSuccessors − 1 would have found the suffix at index 2; the
claim is false as stated. -/
theorem findSuccessors_fallback_range_cex :
    FindSuccessors [mkV 40 "d"] remFail (mkV 0 "s") succs4 2 25 =
      .error "Exhausted all preceeding nodes" ∧
    fallbackScan (mkV 0 "s") 25 2 succs4 1 (knownSuccessors succs4 - 1) =
      some [some (mkV 30 "c")] ∧
    (Except.error "Exhausted all preceeding nodes" :
      Except String (List (Option Vnode))) ≠ .ok [some (mkV 30 "c")] :=
  ⟨rfl, rfl, fun h => Except.noConfusion h⟩

/-- Claim C4, amended: when every remote candidate fails, the fallback scans the
non-immediate successors at indices 1 through knownSuccessors − n (not
knownSuccessors − 1), and for the first scanned index whose entry brackets the
key it returns the remaining suffix of the successor list truncated to n
entries. -/
theorem findSuccessors_fallback_spec (candidates : List Vnode)
    (remote : Vnode → Except String (List (Option Vnode)))
    (self : Vnode) (succs : List (Option Vnode)) (n key t : Nat) (tv : Vnode)
    (h0 : ∀ s0, succs.head?.join = some s0 → betweenRightIncl self.id s0.id key = false)
    (hrem : ∀ c ∈ candidates, ∃ e, remote c = .error e)
    (h1 : 1 ≤ t) (h2 : t ≤ knownSuccessors succs - n)
    (ht : succs[t]? = some (some tv))
    (hbt : betweenRightIncl self.id tv.id key = true)
    (hmin : ∀ j sj, 1 ≤ j → j < t → succs[j]? = some (some sj) →
      betweenRightIncl self.id sj.id key = false) :
    FindSuccessors candidates remote self succs n key = .ok ((succs.drop t).take n) := by
  have hne : succs.isEmpty = false := by
    cases succs with
    | nil => simp at ht
    | cons a l => rfl
  have hhead : (match succs.head?.join with
      | some s0 => betweenRightIncl self.id s0.id key
      | none => false) = false := by
    cases hj : succs.head?.join with
    | none => rfl
    | some s0 => exact h0 s0 hj
  rw [FindSuccessors, hne, hhead]
  simp only [Bool.false_eq_true, if_false, findSuccTail,
    tryRemotes_none remote candidates hrem]
  rw [fallbackScan_hit self key n succs tv (knownSuccessors succs - n) 1 t h1
    (by omega) ht hbt hmin]

/-- Witness for the amended C4 theorem: with n = 1 the scan range reaches index
2 and returns the suffix there, truncated to one entry. -/
theorem findSuccessors_fallback_spec_wit :
    FindSuccessors [mkV 40 "d"] remFail (mkV 0 "s") succs4 1 25 =
      .ok ((succs4.drop 2).take 1) :=
  findSuccessors_fallback_spec [mkV 40 "d"] remFail (mkV 0 "s") succs4 1 25 2 (mkV 30 "c")
    (fun s0 h => by
      simp only [succs4, mkV, List.head?, Option.join] at h
      cases h
      decide)
    (fun c _ => ⟨"unreachable", rfl⟩)
    (by omega) (by decide) rfl rfl
    (fun j sj hj1 hj2 hsj => by
      have hj : j = 1 := by omega
      subst hj
      simp only [succs4, mkV] at hsj
      cases hsj
      decide)

/-- Claim C6 counterexample: the delegated remote answer is returned as-is, so a
remote answering three entries to a query with n = 1 makes FindSuccessors
return three entries; the claim is false as stated. -/
theorem findSuccessors_bound_cex :
    FindSuccessors [mkV 20 "c"] remBig (mkV 0 "s") [some (mkV 10 "a")] 1 50 =
      .ok [some (mkV 60 "x"), some (mkV 70 "y"), some (mkV 80 "z")] ∧
    ¬([some (mkV 60 "x"), some (mkV 70 "y"), some (mkV 80 "z")] :
      List (Option Vnode)).length ≤ 1 :=
  ⟨rfl, by decide⟩

/-- Claim C6, amended: provided every successful delegated remote answer has at
most n entries (the remote answer is returned as-is), FindSuccessors returns at
most n entries; the local-answer and fallback paths guarantee the bound
unconditionally. -/
theorem findSuccessors_bound_spec (candidates : List Vnode)
    (remote : Vnode → Except String (List (Option Vnode)))
    (self : Vnode) (succs : List (Option Vnode)) (n key : Nat) (l : List (Option Vnode))
    (hrem : ∀ c res, remote c = .ok res → res.length ≤ n)
    (hok : FindSuccessors candidates remote self succs n key = .ok l) :
    l.length ≤ n := by
  rw [FindSuccessors] at hok
  by_cases hne : succs.isEmpty
  · simp [hne] at hok
  · rw [if_neg (by simpa using hne)] at hok
    split at hok
    · split at hok
      · obtain h := Except.ok.inj hok
        subst h
        simp [List.length_take]
      · next hgt =>
        obtain h := Except.ok.inj hok
        subst h
        omega
    · rw [findSuccTail] at hok
      cases htr : tryRemotes remote candidates with
      | some res =>
        rw [htr] at hok
        obtain ⟨c, _, hc⟩ := tryRemotes_ok remote candidates res htr
        obtain h := Except.ok.inj hok
        exact h ▸ hrem c res hc
      | none =>
        rw [htr] at hok
        cases hfs : fallbackScan self key n succs 1 (knownSuccessors succs - n) with
        | some l' =>
          rw [hfs] at hok
          obtain h := Except.ok.inj hok
          exact h ▸ fallbackScan_len self key n succs _ 1 l' hfs
        | none =>
          rw [hfs] at hok
          exact absurd hok (by simp)

/-- Witness for the amended C6 theorem on the local-answer path with a remote
oracle that never answers. -/
theorem findSuccessors_bound_spec_wit :
    FindSuccessors [] remFail (mkV 0 "s") [some (mkV 10 "a")] 1 5 =
      .ok [some (mkV 10 "a")] ∧
    ([some (mkV 10 "a")] : List (Option Vnode)).length ≤ 1 :=
  ⟨rfl, findSuccessors_bound_spec [] remFail (mkV 0 "s") [some (mkV 10 "a")] 1 5
    [some (mkV 10 "a")] (fun _ _ h => Except.noConfusion h) rfl⟩

/-- Claim C10: `SkipSuccessor` dereferences successors[0] with no nil check, so
on every state whose first successor slot is nil the embedded code hits the
nil-dereference branch instead of returning normally. -/
theorem skipSuccessor_nil_head_deref (succs : List (Option Vnode)) (s : Vnode)
    (h : succs.head? = some none) : SkipSuccessor succs s = .nilDeref := by
  simp [SkipSuccessor, h]

/-- Witness for the C10 theorem at a concrete state with a nil first slot. -/
theorem skipSuccessor_nil_head_deref_wit :
    ([none] : List (Option Vnode)).head? = some none ∧
    SkipSuccessor [none] (mkV 1 "x") = .nilDeref :=
  ⟨rfl, skipSuccessor_nil_head_deref [none] (mkV 1 "x") rfl⟩

theorem knownSuccessorsAux_replicate :
    ∀ (m i a : Nat), knownSuccessorsAux (List.replicate m none) i a = a := by
  intro m
  induction m with
  | zero => intro i a; rfl
  | succ m ih =>
    intro i a
    rw [List.replicate_succ]
    exact ih (i + 1) a

theorem knownSuccessors_cons_replicate (b : Vnode) (m : Nat) :
    knownSuccessors (some b :: List.replicate m none) = 1 := by
  rw [knownSuccessors, knownSuccessorsAux]
  exact knownSuccessorsAux_replicate m 1 1

theorem drop_cons_replicate :
    ∀ (m : Nat) (x : Option Vnode),
      (x :: List.replicate m (none : Option Vnode)).drop m =
        if m = 0 then [x] else [none] := by
  intro m
  induction m with
  | zero => intro x; rfl
  | succ m ih =>
    intro x
    rw [List.replicate_succ, List.drop_succ_cons, ih none]
    split <;> rfl

theorem shift_promote (b c : Vnode) (m : Nat) :
    (shiftLeftKeepLast (some b :: some c :: List.replicate m none)).set 1 none =
      some c :: List.replicate (m + 1) none := by
  rw [shiftLeftKeepLast]
  simp only [List.tail_cons, List.length_cons, List.length_replicate,
    Nat.add_sub_cancel, List.drop_succ_cons]
  rw [drop_cons_replicate m (some c)]
  cases m with
  | zero => rfl
  | succ m =>
    rw [if_neg (Nat.succ_ne_zero m), List.cons_append, ← List.replicate_succ',
      List.replicate_succ _ (m + 1), List.set_cons_succ, List.set_cons_zero,
      ← List.replicate_succ]

/-- Claim C5 counterexample: in the scenario (only successor B dead, finger
candidate C not covered by (A.Id, B.Id]) the promoted candidate C is immediately
shifted into slot 0 by the repair loop, so after `checkNewSuccessor` returns
successors[1] is nil and successors[0] is C; the claim successors[1] == C is
false as stated. -/
theorem checkNewSuccessor_promote_cex :
    fingerScanFrom (mkV 10 "a") (some (mkV 20 "b")) [some (mkV 5 "c")] none =
      .found (mkV 5 "c") ∧
    (checkNewSuccessor oc5 st5).outcome = .ret none ∧
    (checkNewSuccessor oc5 st5).successors = [some (mkV 5 "c"), none] ∧
    ([some (mkV 5 "c"), none] : List (Option Vnode))[1]? ≠ some (some (mkV 5 "c")) := by
  refine ⟨by decide, by decide, by decide, by decide⟩

/-- Claim C5, amended: starting from a vnode whose only successor B fails
GetPredecessor, with the finger scan promoting C, and C itself answering
GetPredecessor with no predecessor, `checkNewSuccessor` returns nil and leaves
C as successors[0] (the promoted candidate is written to slot 1 and the shift of
the dead head immediately moves it to slot 0); slot 1 ends nil. -/
theorem checkNewSuccessor_promote_spec (oc : ChordOracle) (st : VnState) (b c : Vnode)
    (k : Nat) (e : String)
    (hsucc : st.successors = some b :: List.replicate (k + 1) none)
    (hdead : oc.getPred b = .error e)
    (hscan : fingerScanFrom st.self (some b) st.finger none = .found c)
    (halive : oc.getPred c = .ok none) :
    checkNewSuccessor oc st =
      ⟨.ret none, some c :: List.replicate (k + 1) none, st.finger, [], [], [b, c], false⟩ := by
  simp only [checkNewSuccessor, hsucc, List.head?_cons, hdead]
  rw [knownSuccessors_cons_replicate b (k + 1)]
  have hf : (some b :: List.replicate (k + 1) none).length + st.finger.length + 2
      = (k + 1 + 1 + st.finger.length + 1) + 1 := by
    simp only [List.length_cons, List.length_replicate]
  rw [hf, cnsLoop]
  rw [if_neg (by omega : ¬(1 : Nat) ≤ 0)]
  rw [if_neg (by simp : ¬(some e = (none : Option String)))]
  rw [if_pos (by omega : (0 : Nat) = 1 - 1)]
  rw [List.head?_cons, show (some (some b) : Option (Option Vnode)).join = some b from rfl,
    hscan]
  dsimp only
  rw [if_neg (by simp only [List.length_cons, List.length_replicate]; omega :
    ¬(some b :: List.replicate (k + 1) none).length < 2)]
  rw [if_neg (by omega : ¬(0 : Nat) = 1 + 1 - 1)]
  rw [show (some b :: List.replicate (k + 1) none).set 1 (some c)
      = some b :: some c :: List.replicate k none by
    rw [List.replicate_succ, List.set_cons_succ, List.set_cons_zero]]
  rw [show (1 + 1 - 1 - 0 : Nat) = 1 from rfl]
  rw [shift_promote b c k]
  rw [List.head?_cons]
  dsimp only
  rw [halive]
  dsimp only
  rw [cnsLoop_break]
  rw [cnsFinish]
  rfl

/-- Witness for the amended C5 theorem at the concrete scenario state. -/
theorem checkNewSuccessor_promote_spec_wit :
    checkNewSuccessor oc5 st5 =
      ⟨.ret none, some (mkV 5 "c") :: List.replicate 1 none, st5.finger,
        [], [], [mkV 20 "b", mkV 5 "c"], false⟩ :=
  checkNewSuccessor_promote_spec oc5 st5 (mkV 20 "b") (mkV 5 "c") 0 "connection refused"
    rfl rfl rfl rfl

theorem extendRun_spec (self node : Vnode) (hb : Nat) :
    ∀ (fuel : Nat) (finger : List (Option Vnode)) (idx : Nat),
      idx < hb → hb - 1 - idx ≤ fuel → finger.length = hb →
      ∃ r,
        idx ≤ r ∧ r < hb ∧
        (extendRun self node hb finger idx fuel).2 = r ∧
        (extendRun self node hb finger idx fuel).1.length = hb ∧
        (∀ kk, idx < kk → kk ≤ r →
          betweenRightIncl self.id node.id (powerOffset self.id kk hb) = true) ∧
        (r + 1 < hb → betweenRightIncl self.id node.id (powerOffset self.id (r + 1) hb) = false) ∧
        (∀ j, j ≤ idx ∨ r < j → (extendRun self node hb finger idx fuel).1[j]? = finger[j]?) ∧
        (∀ j, idx < j → j ≤ r → (extendRun self node hb finger idx fuel).1[j]? = some (some node)) := by
  intro fuel
  induction fuel with
  | zero =>
    intro finger idx hidx hfuel hlen
    refine ⟨idx, le_rfl, hidx, rfl, hlen, ?_, ?_, ?_, ?_⟩
    · intro kk h1 h2; omega
    · intro h; omega
    · intro j _; rfl
    · intro j h1 h2; omega
  | succ fuel ih =>
    intro finger idx hidx hfuel hlen
    rw [extendRun]
    by_cases hnext : hb ≤ idx + 1
    · rw [if_pos hnext]
      refine ⟨idx, le_rfl, hidx, rfl, hlen, ?_, ?_, ?_, ?_⟩
      · intro kk h1 h2; omega
      · intro h; omega
      · intro j _; rfl
      · intro j h1 h2; omega
    · rw [if_neg hnext]
      by_cases hbtw : betweenRightIncl self.id node.id (powerOffset self.id (idx + 1) hb) = true
      · rw [if_pos hbtw]
        obtain ⟨r, hr1, hr2, hr3, hr4, hr5, hr6, hr7, hr8⟩ :=
          ih (finger.set (idx + 1) (some node)) (idx + 1) (by omega) (by omega)
            (by simp [hlen])
        refine ⟨r, by omega, hr2, hr3, hr4, ?_, hr6, ?_, ?_⟩
        · intro kk h1 h2
          by_cases hkk : kk = idx + 1
          · subst hkk; exact hbtw
          · exact hr5 kk (by omega) h2
        · intro j hj
          rcases hj with hj | hj
          · rw [hr7 j (Or.inl (by omega))]
            exact List.getElem?_set_ne (by omega)
          · rw [hr7 j (Or.inr hj)]
            exact List.getElem?_set_ne (by omega)
        · intro j h1 h2
          by_cases hj : j = idx + 1
          · subst hj
            rw [hr7 (idx + 1) (Or.inl le_rfl)]
            exact List.getElem?_set_eq_of_lt _ (by omega)
          · exact hr8 j (by omega) h2
      · rw [if_neg hbtw]
        refine ⟨idx, le_rfl, hidx, rfl, hlen, ?_, ?_, ?_, ?_⟩
        · intro kk h1 h2; omega
        · intro h; simpa using hbtw
        · intro j _; rfl
        · intro j h1 h2; omega

/-- Claim C8 counterexample: starting from the invariant-satisfying run
[A, A, A] (A responsible for all three offsets from self 0), refreshing index 1
adopts a different node B not responsible for offset 2, leaving [A, B, A]; the
call succeeds and returns 2, but the monotonic run invariant is now violated at
the boundary 0 → 1, so the claim's final conjunct is false as stated. -/
theorem fixFinger_invariant_cex :
    fixFingerTableAtIndex resolve8 pingUp (mkV 0 "s") 3 fpre8 1 =
      .ret [some (mkV 7 "a"), some (mkV 3 "b"), some (mkV 7 "a")] 2 none ∧
    runInvariantB (mkV 0 "s") 3 fpre8 = true ∧
    runInvariantB (mkV 0 "s") 3 [some (mkV 7 "a"), some (mkV 3 "b"), some (mkV 7 "a")] = false :=
  ⟨by decide, by decide, by decide⟩

/-- Claim C8, amended: when the lookup resolves a node for index i, the call
sets finger[i] to the chosen node (the resolved node, or the old entry when the
probe of a differing new candidate fails) and eagerly copies it forward into
consecutive indices while betweenRightIncl(Id, node.Id, powerOffset(Id, next,
hashBits)) holds, stopping at the first index r + 1 where it does not; it
returns r + 1 wrapping to 0 when that equals hashBits; entries outside [i, r]
are untouched and the run invariant holds at every boundary inside the updated
run; the table-wide invariant, however, is not restored (see the
counterexample). -/
theorem fixFinger_extends_spec (resolve : Nat → Except String (List (Option Vnode)))
    (ping : Vnode → Except String Bool) (self : Vnode) (hb : Nat)
    (finger : List (Option Vnode)) (idx : Nat) (node0 : Vnode)
    (restNodes : List (Option Vnode))
    (hidx : idx < hb) (hlen : finger.length = hb)
    (hres : resolve (powerOffset self.id idx hb) = .ok (some node0 :: restNodes)) :
    ∃ node r finger2,
      fixFingerTableAtIndex resolve ping self hb finger idx =
        .ret finger2 (if r + 1 = hb then 0 else r + 1) none ∧
      idx ≤ r ∧ r < hb ∧ finger2.length = hb ∧
      finger2[idx]? = some (some node) ∧
      (∀ kk, idx < kk → kk ≤ r →
        finger2[kk]? = some (some node) ∧
        betweenRightIncl self.id node.id (powerOffset self.id kk hb) = true) ∧
      (r + 1 < hb → betweenRightIncl self.id node.id (powerOffset self.id (r + 1) hb) = false) ∧
      (∀ j, j < idx ∨ r < j → finger2[j]? = finger[j]?) ∧
      (∀ j v, idx ≤ j → j < r → finger2[j]? = some (some v) →
        finger2[j + 1]? = some (some v)) := by
  rw [fixFingerTableAtIndex, hres]
  dsimp only
  rw [List.head?_cons]
  dsimp only
  set nd := (match finger[idx]?.join with
    | some old =>
      if old.id ≠ node0.id then
        match ping node0 with
        | .ok true => node0
        | _ => old
      else node0
    | none => node0) with hnd
  obtain ⟨r, hr1, hr2, hr3, hr4, hr5, hr6, hr7, hr8⟩ :=
    extendRun_spec self nd hb hb (finger.set idx (some nd)) idx hidx (by omega)
      (by simp [hlen])
  have hsetidx : (finger.set idx (some nd))[idx]? = some (some nd) :=
    List.getElem?_set_eq_of_lt _ (by omega)
  have hfidx : (extendRun self nd hb (finger.set idx (some nd)) idx hb).1[idx]? =
      some (some nd) := by
    rw [hr7 idx (Or.inl le_rfl)]
    exact hsetidx
  refine ⟨nd, r, (extendRun self nd hb (finger.set idx (some nd)) idx hb).1,
    ?_, hr1, hr2, hr4, hfidx, ?_, hr6, ?_, ?_⟩
  · rw [← hr3]
  · intro kk h1 h2
    exact ⟨hr8 kk h1 h2, hr5 kk h1 h2⟩
  · intro j hj
    have hne : idx ≠ j := by rcases hj with hj | hj <;> omega
    have hcond : j ≤ idx ∨ r < j := by
      rcases hj with hj | hj
      · exact Or.inl (by omega)
      · exact Or.inr hj
    rw [hr7 j hcond]
    exact List.getElem?_set_ne hne
  · intro j v hj1 hj2 hjv
    have hv : v = nd := by
      by_cases hj : j = idx
      · subst hj
        rw [hfidx] at hjv
        exact (Option.some_inj.mp (Option.some_inj.mp hjv)).symm
      · rw [hr8 j (by omega) (by omega)] at hjv
        exact (Option.some_inj.mp (Option.some_inj.mp hjv)).symm
    subst hv
    exact hr8 (j + 1) (by omega) (by omega)

/-- Witness for the amended C8 theorem: refreshing index 0 of an empty
three-entry table from self 0 with the lookup resolving node 3. -/
theorem fixFinger_extends_spec_wit :
    ∃ node r finger2,
      fixFingerTableAtIndex resolve8w pingUp (mkV 0 "s") 3 [none, none, none] 0 =
        .ret finger2 (if r + 1 = 3 then 0 else r + 1) none ∧
      0 ≤ r ∧ r < 3 ∧ finger2.length = 3 ∧
      finger2[0]? = some (some node) ∧
      (∀ kk, 0 < kk → kk ≤ r →
        finger2[kk]? = some (some node) ∧
        betweenRightIncl (mkV 0 "s").id node.id (powerOffset (mkV 0 "s").id kk 3) = true) ∧
      (r + 1 < 3 → betweenRightIncl (mkV 0 "s").id node.id
        (powerOffset (mkV 0 "s").id (r + 1) 3) = false) ∧
      (∀ j, j < 0 ∨ r < j → finger2[j]? = ([none, none, none] : List (Option Vnode))[j]?) ∧
      (∀ j v, 0 ≤ j → j < r → finger2[j]? = some (some v) →
        finger2[j + 1]? = some (some v)) :=
  fixFinger_extends_spec resolve8w pingUp (mkV 0 "s") 3 [none, none, none] 0 (mkV 3 "b") []
    (by omega) rfl rfl

end NknChord
